import Mathlib

/-!
Verification of the `light-search` library: a shallow embedding, in Lean, of the
inverted-index engine (`lsearch/inverted_index/inverted_index.py`,
`lsearch/text_processing/tokenization/tokenizers.py`) and of the columnar row
store (`lsearch/table_serializer/table_serializer.py`), together with theorems
about the embedded definitions.

Modelling conventions:
* Python `int` is `Int` (or `Nat` where the source only ever produces
  non-negative values, such as term ids, doc ids and byte offsets);
* Python `dict` (insertion ordered) is an association list, looked up with
  `List.find?` on the key;
* file contents are byte lists (`List Nat`, each entry < 256);
* code that can raise is embedded in `Except PyErr`;
* `struct.pack/unpack` for format `i` (native little-endian signed 32-bit) is
  modelled exactly, including the range error;
* Python's `list.sort` / `sorted` (Timsort) is a stable ascending sort, hence
  pointwise equal to `List.insertionSort` with the non-strict key order, which
  is also stable; this is used wherever the source sorts.
-/

deriving instance DecidableEq for Except

namespace LSearch

/-- Python exception kinds raised (or potentially raised) by the embedded code. -/
inductive PyErr where
  | keyError
  | indexError
  | nameError
  | structError
  | attributeError
  | picklingError
  | valueError (msg : String)
  deriving DecidableEq, Repr

/-! ## Tokenizer (`tokenizers.py`)

`tokenizer_func(x) = re.findall(r'(?u)\b\w+\b', x.lower())`: lower-case the
input and return the maximal runs of word characters.  Word characters are
modelled as ASCII alphanumerics plus underscore (the `(?u)` Unicode classes
restricted to the ASCII range, which is all the repository's tests exercise). -/

/-- A word character for the `\w` class of `token_pattern`, ASCII fragment. -/
def isWordChar (c : Char) : Bool :=
  c.isAlpha || c.isDigit || c = '_'

/-- Scan for maximal runs of word characters; `cur` is the reversed run in
progress. -/
def wordRuns : List Char → List Char → List (List Char)
  | [], [] => []
  | [], cur => [cur.reverse]
  | c :: cs, cur =>
    if isWordChar c then wordRuns cs (c :: cur)
    else if cur = [] then wordRuns cs []
    else cur.reverse :: wordRuns cs []

/-- `tokenizer_func` from `tokenizers.py`: lowercase (`x.lower()`, modelled
character by character), then split into word tokens. -/
def tokenizer_func (x : String) : List String :=
  (wordRuns (x.toList.map Char.toLower) []).map fun l => String.mk l

/-! ## Two-way posting intersection (`InvertedIndex.intersection`)

The source walks two pointers over `postings_a`/`postings_b`, emitting on
equality and advancing the pointer at the smaller value; the loop ends when
either pointer passes the end of its list.  The recursion below consumes the
suffixes still pointed at. -/

/-- `InvertedIndex.intersection` (inverted_index.py lines 238-253). -/
def intersection : List Int → List Int → List Int
  | [], _ => []
  | _ :: _, [] => []
  | a :: as, b :: bs =>
    if a = b then a :: intersection as bs
    else if a < b then intersection as (b :: bs)
    else intersection (a :: as) bs
termination_by x y => x.length + y.length
decreasing_by all_goals (simp only [List.length_cons]; omega)

/-! ## Multi-way intersection (`InvertedIndex.intersect_postings`)

The source does `postings_lists_sorted = postings_lists` (an alias, not a
copy) and then `postings_lists_sorted.sort(key=len)`, which reorders the
*caller's* list object in place.  `postings_lists_sorted[0]` raises
`IndexError` on an empty argument.  The embedding returns both the caller's
list as left after the call and the result (or error). -/

/-- The in-place `postings_lists.sort(key=len)`: a stable ascending sort by
length, hence `List.insertionSort` with the non-strict length order. -/
def sortByLen (pls : List (List Int)) : List (List Int) :=
  List.insertionSort (fun x y => x.length ≤ y.length) pls

/-- `InvertedIndex.intersect_postings` (inverted_index.py lines 226-236).
Returns (the caller's list object after the call, the returned value). -/
def intersect_postings (postings_lists : List (List Int)) :
    List (List Int) × Except PyErr (List Int) :=
  match sortByLen postings_lists with
  | [] => (sortByLen postings_lists, .error .indexError)
  | result :: rest => (sortByLen postings_lists, .ok (rest.foldl intersection result))

/-! ### Correctness of `intersection` (claim C5) -/

/-- On strictly ascending inputs, `intersection` computes the sublist of the
first list whose elements also occur in the second. -/
theorem intersection_eq_filter (A B : List Int) :
    A.Sorted (· < ·) → B.Sorted (· < ·) →
    intersection A B = A.filter (fun x => decide (x ∈ B)) := by
  induction A, B using intersection.induct with
  | case1 B => intro _ _; simp [intersection]
  | case2 a as => intro _ _; simp [intersection]
  | case3 as b bs ih =>
    intro hA hB
    rw [List.sorted_cons] at hA hB
    simp only [intersection, if_pos rfl, List.filter_cons]
    have hmem : decide (b ∈ b :: bs) = true := by simp
    rw [hmem]
    simp only [ih hA.2 hB.2]
    refine congrArg (b :: ·) (List.filter_congr ?_)
    intro x hx
    have hbx : b < x := hA.1 x hx
    simp only [decide_eq_decide, List.mem_cons]
    constructor
    · intro h; exact Or.inr h
    · rintro (rfl | h)
      · exact absurd hbx (lt_irrefl x)
      · exact h
  | case4 a as b bs hne hlt ih =>
    intro hA hB
    rw [List.sorted_cons] at hA
    rw [intersection, if_neg hne, if_pos hlt, List.filter_cons]
    have hnotmem : a ∉ b :: bs := by
      rw [List.sorted_cons] at hB
      simp only [List.mem_cons]
      rintro (rfl | h)
      · exact hne rfl
      · exact absurd hlt (not_lt.mpr (le_of_lt (hB.1 a h)))
    simp only [decide_eq_false hnotmem]
    exact ih hA.2 hB
  | case5 a as b bs hne hnlt ih =>
    intro hA hB
    rw [List.sorted_cons] at hB
    have hba : b < a := lt_of_le_of_ne (not_lt.mp hnlt) (fun h => hne h.symm)
    rw [intersection, if_neg hne, if_neg hnlt, ih hA hB.2]
    refine (List.filter_congr ?_).symm
    intro x hx
    have hbx : b < x := by
      rcases List.mem_cons.mp hx with rfl | h
      · exact hba
      · rw [List.sorted_cons] at hA
        exact lt_trans hba (hA.1 x h)
    simp only [decide_eq_decide, List.mem_cons]
    constructor
    · rintro (rfl | h)
      · exact absurd hbx (lt_irrefl x)
      · exact h
    · intro h; exact Or.inr h

/-- Membership in the intersection of ascending lists. -/
theorem mem_intersection {x : Int} {A B : List Int}
    (hA : A.Sorted (· < ·)) (hB : B.Sorted (· < ·)) :
    x ∈ intersection A B ↔ x ∈ A ∧ x ∈ B := by
  rw [intersection_eq_filter A B hA hB]
  simp

/-- The intersection of ascending lists is ascending. -/
theorem intersection_sorted {A B : List Int}
    (hA : A.Sorted (· < ·)) (hB : B.Sorted (· < ·)) :
    (intersection A B).Sorted (· < ·) := by
  rw [intersection_eq_filter A B hA hB]
  exact hA.filter _

/-- A strictly ascending list has no duplicates. -/
theorem sorted_lt_nodup {l : List Int} (h : l.Sorted (· < ·)) : l.Nodup :=
  h.imp ne_of_lt

/-- Strictly ascending lists with the same members are equal. -/
theorem eq_of_sorted_of_mem_iff {l₁ l₂ : List Int}
    (h₁ : l₁.Sorted (· < ·)) (h₂ : l₂.Sorted (· < ·))
    (h : ∀ x, x ∈ l₁ ↔ x ∈ l₂) : l₁ = l₂ := by
  haveI : IsAntisymm Int (· < ·) := ⟨fun a b hab hba => absurd hba (lt_asymm hab)⟩
  exact List.eq_of_perm_of_sorted
    ((List.perm_ext_iff_of_nodup (sorted_lt_nodup h₁) (sorted_lt_nodup h₂)).mpr h) h₁ h₂

/-- `intersection` is commutative on ascending lists. -/
theorem intersection_comm {A B : List Int}
    (hA : A.Sorted (· < ·)) (hB : B.Sorted (· < ·)) :
    intersection A B = intersection B A := by
  refine eq_of_sorted_of_mem_iff (intersection_sorted hA hB) (intersection_sorted hB hA) ?_
  intro x
  rw [mem_intersection hA hB, mem_intersection hB hA, and_comm]

/-- `intersection` is associative on ascending lists. -/
theorem intersection_assoc {A B C : List Int}
    (hA : A.Sorted (· < ·)) (hB : B.Sorted (· < ·)) (hC : C.Sorted (· < ·)) :
    intersection (intersection A B) C = intersection A (intersection B C) := by
  refine eq_of_sorted_of_mem_iff
    (intersection_sorted (intersection_sorted hA hB) hC)
    (intersection_sorted hA (intersection_sorted hB hC)) ?_
  intro x
  rw [mem_intersection (intersection_sorted hA hB) hC,
      mem_intersection hA hB,
      mem_intersection hA (intersection_sorted hB hC),
      mem_intersection hB hC, and_assoc]

/-- C5: for all finite strictly ascending integer sequences `A` and `B` (and a
third list `C` for the fold case), `intersection A B` contains exactly the
elements common to `A` and `B`, in ascending order; `intersection` is
commutative and associative, so folding it over more than two ascending lists
is order-independent. -/
theorem intersection_correct_comm_assoc (A B C : List Int)
    (hA : A.Sorted (· < ·)) (hB : B.Sorted (· < ·)) (hC : C.Sorted (· < ·)) :
    (∀ x, x ∈ intersection A B ↔ x ∈ A ∧ x ∈ B) ∧
    (intersection A B).Sorted (· < ·) ∧
    intersection A B = intersection B A ∧
    intersection (intersection A B) C = intersection A (intersection B C) :=
  ⟨fun _ => mem_intersection hA hB, intersection_sorted hA hB,
   intersection_comm hA hB, intersection_assoc hA hB hC⟩

/-- C5 witness: the theorem instantiated at the concrete ascending lists
`[1,2,3,4]`, `[3,4,5,6]`, `[4,6]`. -/
theorem intersection_correct_comm_assoc_witness :
    (([1, 2, 3, 4] : List Int).Sorted (· < ·) ∧
     ([3, 4, 5, 6] : List Int).Sorted (· < ·) ∧
     ([4, 6] : List Int).Sorted (· < ·)) ∧
    ((∀ x, x ∈ intersection [1, 2, 3, 4] [3, 4, 5, 6] ↔
        x ∈ ([1, 2, 3, 4] : List Int) ∧ x ∈ ([3, 4, 5, 6] : List Int)) ∧
     (intersection [1, 2, 3, 4] [3, 4, 5, 6]).Sorted (· < ·) ∧
     intersection [1, 2, 3, 4] [3, 4, 5, 6] = intersection [3, 4, 5, 6] [1, 2, 3, 4] ∧
     intersection (intersection [1, 2, 3, 4] [3, 4, 5, 6]) [4, 6] =
       intersection [1, 2, 3, 4] (intersection [3, 4, 5, 6] [4, 6])) :=
  ⟨⟨by decide, by decide, by decide⟩,
   intersection_correct_comm_assoc [1, 2, 3, 4] [3, 4, 5, 6] [4, 6]
     (by decide) (by decide) (by decide)⟩

/-! ### Frame effect of `intersect_postings` (claim C10) -/

/-- C10 counterexample: a call with two posting lists of differing lengths
after which the caller's list is unchanged — the in-place `sort(key=len)` is a
no-op on an input already in ascending-length order, so it is not the case
that every such call observably reorders the caller's list. -/
theorem intersect_postings_not_always_reordered :
    ([[5], [1, 2]] : List (List Int)).length = 2 ∧
    ([[5], [1, 2]] : List (List Int)).map List.length = [1, 2] ∧
    (intersect_postings [[5], [1, 2]]).1 = [[5], [1, 2]] := by
  refine ⟨rfl, rfl, ?_⟩
  rfl

/-- C10 amended: `intersect_postings` does sort its argument list in place by
ascending length (a stable sort), so the operation is not read-only on its
input; but the caller's list is observably reordered exactly when it was not
already in non-decreasing length order. -/
theorem intersect_postings_mutates_iff (pls : List (List Int)) :
    (intersect_postings pls).1 = sortByLen pls ∧
    ((intersect_postings pls).1 = pls ↔
      pls.Sorted (fun x y => x.length ≤ y.length)) := by
  haveI : IsTotal (List Int) (fun x y => x.length ≤ y.length) :=
    ⟨fun a b => Nat.le_total a.length b.length⟩
  haveI : IsTrans (List Int) (fun x y => x.length ≤ y.length) :=
    ⟨fun _ _ _ hab hbc => Nat.le_trans hab hbc⟩
  have hfst : (intersect_postings pls).1 = sortByLen pls := by
    unfold intersect_postings
    split <;> rfl
  refine ⟨hfst, ?_⟩
  rw [hfst]
  constructor
  · intro h
    rw [← h]
    exact List.sorted_insertionSort _ pls
  · intro h
    exact List.Sorted.insertionSort_eq h

/-! ## Binary codec for `struct.pack/unpack("iii", ...)`

Format `i` is a native (little-endian) signed 32-bit integer; `struct.pack`
raises for out-of-range values and `struct.unpack` requires the exact byte
count. -/

/-- `struct.pack("i", n)`: four little-endian bytes of the two's-complement
representation, `struct.error` outside `[-2^31, 2^31)`. -/
def pack_i32 (n : Int) : Except PyErr (List Nat) :=
  if n < -(2 ^ 31) ∨ (2 ^ 31 : Int) ≤ n then .error .structError
  else
    let v := (n % (2 ^ 32 : Int)).toNat
    .ok [v % 256, v / 256 % 256, v / 65536 % 256, v / 16777216 % 256]

/-- `struct.unpack("i", b)`: exactly four bytes, two's-complement value. -/
def unpack_i32 (b : List Nat) : Except PyErr Int :=
  match b with
  | [b0, b1, b2, b3] =>
    let v : Nat := b0 + 256 * b1 + 65536 * b2 + 16777216 * b3
    .ok (if v < 2 ^ 31 then (v : Int) else (v : Int) - 2 ^ 32)
  | _ => .error .structError

/-- `struct.pack("iii", *record)`. -/
def pack_iii (r : Int × Int × Int) : Except PyErr (List Nat) := do
  let a ← pack_i32 r.1
  let b ← pack_i32 r.2.1
  let c ← pack_i32 r.2.2
  pure (a ++ b ++ c)

/-- `struct.unpack("iii", data)`: exactly twelve bytes. -/
def unpack_iii (data : List Nat) : Except PyErr (Int × Int × Int) :=
  if data.length = 12 then do
    let a ← unpack_i32 (data.take 4)
    let b ← unpack_i32 ((data.drop 4).take 4)
    let c ← unpack_i32 (data.drop 8)
    pure (a, b, c)
  else .error .structError

/-- The decode loop of `get_tuples_for_term_id`:
`[struct.unpack("iii", data[i:i+record_size]) for i in range(0, len(data), record_size)]`.
Twelve bytes are consumed per record; a trailing chunk shorter than twelve
bytes makes the comprehension's `struct.unpack` raise. -/
def decode_iii_records : List Nat → Except PyErr (List (Int × Int × Int))
  | [] => .ok []
  | b0 :: b1 :: b2 :: b3 :: b4 :: b5 :: b6 :: b7 :: b8 :: b9 :: b10 :: b11 :: rest => do
    let r ← unpack_iii [b0, b1, b2, b3, b4, b5, b6, b7, b8, b9, b10, b11]
    let tl ← decode_iii_records rest
    pure (r :: tl)
  | _ :: _ => .error .structError

/-! ## Vocabulary and frequency builder (`tokenizers.py`) -/

/-- Lookup in an insertion-ordered Python dict modelled as an association
list: value of the first pair whose key matches. -/
def dictFind {α β : Type} [BEq α] (m : List (α × β)) (k : α) : Option β :=
  (m.find? fun p => p.1 == k).map fun p => p.2

/-- `get_word_counts` (tokenizers.py lines 10-14): per-token counts in an
insertion-ordered dict. -/
def get_word_counts (words : List String) : List (String × Nat) :=
  words.foldl
    (fun counts w =>
      if counts.any fun p => p.1 == w then
        counts.map fun p => if p.1 == w then (p.1, p.2 + 1) else p
      else counts ++ [(w, 1)])
    []

/-- `build_word2pos` (tokenizers.py lines 16-23): first-seen dense term ids. -/
def build_word2pos (docs : List String) : List (String × Nat) :=
  docs.foldl
    (fun word2pos doc =>
      (tokenizer_func doc).foldl
        (fun w2p w =>
          if w2p.any fun p => p.1 == w then w2p else w2p ++ [(w, w2p.length)])
        word2pos)
    []

/-- `d[k] += v` on a dict that may not yet contain `k` (the
`if w in d: d[w] += v else: d[w] = v` pattern of `build_document_tuples`). -/
def dictBump (m : List (String × Nat)) (k : String) (v : Nat) : List (String × Nat) :=
  if m.any fun p => p.1 == k then
    m.map fun p => if p.1 == k then (p.1, p.2 + v) else p
  else m ++ [(k, v)]

/-- The tuple-emitting loop of `build_document_tuples`:
`for word, counts in doc_word_counts.items(): tuples.append((word2pos[word], i, counts))`;
`word2pos[word]` raises `KeyError` when the word is absent. -/
def appendDocTuples (word2pos : List (String × Nat)) (i : Nat)
    (cnts : List (String × Nat)) (tuples : List (Nat × Nat × Nat)) :
    Except PyErr (List (Nat × Nat × Nat)) :=
  cnts.foldlM
    (fun ts p =>
      match dictFind word2pos p.1 with
      | none => .error .keyError
      | some tid => .ok (ts ++ [(tid, i, p.2)]))
    tuples

/-- The `for i, doc in enumerate(docs)` loop of `build_document_tuples`,
with the running document index made explicit. -/
def build_document_tuples_go (word2pos : List (String × Nat)) :
    Nat → List String →
    List (Nat × Nat × Nat) × List (String × Nat) × List (String × Nat) →
    Except PyErr (List (Nat × Nat × Nat) × List (String × Nat) × List (String × Nat))
  | _, [], acc => .ok acc
  | i, doc :: rest, (tuples, dfs, wfs) =>
    let cnts := get_word_counts (tokenizer_func doc)
    let dfs' := cnts.foldl (fun m p => dictBump m p.1 1) dfs
    let wfs' := cnts.foldl (fun m p => dictBump m p.1 p.2) wfs
    match appendDocTuples word2pos i cnts tuples with
    | .error e => .error e
    | .ok tuples' => build_document_tuples_go word2pos (i + 1) rest (tuples', dfs', wfs')

/-- `build_document_tuples` (tokenizers.py lines 25-44): returns
(posting tuples, document frequencies, word frequencies). -/
def build_document_tuples (docs : List String) (word2pos : List (String × Nat)) :
    Except PyErr (List (Nat × Nat × Nat) × List (String × Nat) × List (String × Nat)) :=
  build_document_tuples_go word2pos 0 docs ([], [], [])

/-- `sorted(doc_tuples, key=lambda x: x[0])`: Timsort is a stable ascending
sort, hence equal to the (stable) insertion sort by the non-strict key order. -/
def sortTuplesByTermId (ts : List (Nat × Nat × Nat)) : List (Nat × Nat × Nat) :=
  List.insertionSort (fun a b => a.1 ≤ b.1) ts

/-- `get_vocabulary_and_tdf_tuples` (tokenizers.py lines 66-74). -/
def get_vocabulary_and_tdf_tuples (docs : List String) :
    Except PyErr
      (List (String × Nat) × List (Nat × Nat × Nat) ×
       List (String × Nat) × List (String × Nat)) := do
  let word2pos := build_word2pos docs
  let (doc_tuples, document_frequencies, word_freq) ← build_document_tuples docs word2pos
  pure (word2pos, sortTuplesByTermId doc_tuples, document_frequencies, word_freq)

/-- The grouping built by `build_inv_index_from_tdf_tuples`: `grouped_data[t]`
holds, in traversal order, exactly the tuples whose term id is `t`. -/
def grouped_data (tdf : List (Nat × Nat × Nat)) (t : Nat) : List (Nat × Nat × Nat) :=
  tdf.filter fun r => r.1 == t

/-- `sorted(grouped_data.keys())`: the distinct term ids present, ascending
(the pre-sort key order is irrelevant, the set of keys determines the result). -/
def sorted_term_keys (tdf : List (Nat × Nat × Nat)) : List Nat :=
  List.insertionSort (· ≤ ·) (tdf.map fun r => r.1).dedup

/-- `build_inv_index_from_tdf_tuples` (tokenizers.py lines 76-85). -/
def build_inv_index_from_tdf_tuples (tdf : List (Nat × Nat × Nat)) :
    (Nat → List (Nat × Nat × Nat)) × List Nat :=
  (grouped_data tdf, sorted_term_keys tdf)

/-! ## Posting store (`inverted_index.py`) -/

/-- The files `InvertedIndex.store_inv_index` leaves in `folder_store`:
`data_by_term.bin`, `postings_term_pointers.pkl`, `word2pos.pkl`,
`word_freq.pkl`, `doc_freq.pkl` (pickle round-trips are identities on the
stored values). -/
structure InvIndexFolder where
  data_by_term : List Nat
  postings_term_pointers : List (Nat × Nat)
  word2pos : List (String × Nat)
  word_freq : List (String × Nat)
  doc_freq : List (String × Nat)
  deriving DecidableEq, Repr

/-- The blob/directory write loop of `store_inv_index` (lines 22-27): for each term
key in order, record `f.tell()` as its offset, then append its packed records. -/
def store_postings (grouped : Nat → List (Nat × Nat × Nat)) (keys : List Nat) :
    Except PyErr (List (Nat × Nat) × List Nat) :=
  keys.foldlM
    (fun acc x => do
      let ptrs := acc.1 ++ [(x, acc.2.length)]
      let bytes ← (grouped x).foldlM
        (fun bs r => do
          let pb ← pack_iii ((r.1 : Int), (r.2.1 : Int), (r.2.2 : Int))
          pure (bs ++ pb))
        acc.2
      pure (ptrs, bytes))
    ([], [])

/-- `InvertedIndex.index` (lines 42-52): build the vocabulary, frequencies and
sorted tuples, group them, and persist everything to the folder. -/
def index (docs : List String) : Except PyErr InvIndexFolder := do
  let (word2pos, sorted_tuples_by_term_id, doc_freq, word_freq) ←
    get_vocabulary_and_tdf_tuples docs
  let (grouped, keys) := build_inv_index_from_tdf_tuples sorted_tuples_by_term_id
  let (ptrs, blob) ← store_postings grouped keys
  pure { data_by_term := blob, postings_term_pointers := ptrs,
         word2pos := word2pos, word_freq := word_freq, doc_freq := doc_freq }

/-- The in-memory `InvertedIndex` object as left by `read_inv_index`: the four
metadata artifacts, plus the folder whose `data_by_term.bin` later lookups
open and read. -/
structure InvertedIndexHandle where
  word2pos : List (String × Nat)
  word_freq : List (String × Nat)
  doc_freq : List (String × Nat)
  postings_term_pointers : List (Nat × Nat)
  folder_store : InvIndexFolder
  deriving DecidableEq, Repr

/-- `InvertedIndex.read_inv_index` (lines 54-89): unpickle the four metadata
files (never the postings blob) and keep the folder path for later lookups. -/
def read_inv_index (folder : InvIndexFolder) : InvertedIndexHandle :=
  { word2pos := folder.word2pos
    word_freq := folder.word_freq
    doc_freq := folder.doc_freq
    postings_term_pointers := folder.postings_term_pointers
    folder_store := folder }

/-- `InvertedIndex.get_tuples_for_term_id` (lines 128-156).  Absent ids yield
`[]`; otherwise the end offset is `postings_term_pointers[term_id + 1]`
whenever `term_id + 1 < len(postings_term_pointers)` (an arithmetic-successor
lookup, which can itself raise `KeyError`) and end-of-file otherwise; the byte
span is then read and decoded as fixed-width triples.  `f.read(n)` reads the
rest of the file when `n` is negative, matching the Python semantics. -/
def get_tuples_for_term_id (h : InvertedIndexHandle) (term_id : Nat) :
    Except PyErr (List (Int × Int × Int)) :=
  match dictFind h.postings_term_pointers term_id with
  | none => .ok []
  | some start_pos =>
    let blob := h.folder_store.data_by_term
    let n_term_pointers := h.postings_term_pointers.length
    let end_posE : Except PyErr Nat :=
      if term_id + 1 < n_term_pointers then
        match dictFind h.postings_term_pointers (term_id + 1) with
        | none => .error .keyError
        | some p => .ok p
      else .ok blob.length
    match end_posE with
    | .error e => .error e
    | .ok end_pos =>
      let bytes_to_read : Int := (end_pos : Int) - (start_pos : Int)
      let data :=
        if bytes_to_read < 0 then blob.drop start_pos
        else (blob.drop start_pos).take bytes_to_read.toNat
      decode_iii_records data

/-- `InvertedIndex.get_tuples_for_term` (lines 123-126): `self.word2pos[term]`
raises `KeyError` when the term is not in the vocabulary. -/
def get_tuples_for_term (h : InvertedIndexHandle) (term : String) :
    Except PyErr (List (Int × Int × Int)) :=
  match dictFind h.word2pos term with
  | none => .error .keyError
  | some term_id => get_tuples_for_term_id h term_id

/-- `InvertedIndex.search_postings_for_terms` (lines 189-194). -/
def search_postings_for_terms (h : InvertedIndexHandle) (query : String) :
    Except PyErr (List (List (Int × Int × Int))) :=
  (tokenizer_func query).mapM (get_tuples_for_term h)

/-- `InvertedIndex.search` (lines 197-203): fetch per-term postings, project
each to its doc-id column, and intersect.  The mutation of the local
`postings_` list by `intersect_postings` is invisible to the caller. -/
def search (h : InvertedIndexHandle) (query : String) : Except PyErr (List Int) := do
  let postings_per_term ← search_postings_for_terms h query
  let postings_ := postings_per_term.map fun postings => postings.map fun p => p.2.1
  (intersect_postings postings_).2

/-! ### Concrete posting stores used as test inputs -/

/-- A store whose term offset directory is non-contiguous at the top: ids 3
and 4 present (ids 0-2 filtered out by the caller), blob holding the records
`(3,7,1)` then `(4,9,2)`. -/
def ncFolderA : InvIndexFolder :=
  { data_by_term := [3, 0, 0, 0, 7, 0, 0, 0, 1, 0, 0, 0, 4, 0, 0, 0, 9, 0, 0, 0, 2, 0, 0, 0]
    postings_term_pointers := [(3, 0), (4, 12)]
    word2pos := [("delta", 3), ("echo", 4)]
    word_freq := [("delta", 1), ("echo", 2)]
    doc_freq := [("delta", 1), ("echo", 1)] }

/-- A store whose term offset directory has a gap in the middle: ids 0 and 2
present (id 1 filtered out), blob holding the records `(0,7,1)` then `(2,9,2)`. -/
def ncFolderB : InvIndexFolder :=
  { data_by_term := [0, 0, 0, 0, 7, 0, 0, 0, 1, 0, 0, 0, 2, 0, 0, 0, 9, 0, 0, 0, 2, 0, 0, 0]
    postings_term_pointers := [(0, 0), (2, 12)]
    word2pos := [("alpha", 0), ("gamma", 2)]
    word_freq := [("alpha", 1), ("gamma", 2)]
    doc_freq := [("alpha", 1), ("gamma", 1)] }

/-- The store produced by `index ["apple"]`: one term, one record `(0,0,1)`. -/
def tinyFolder : InvIndexFolder :=
  { data_by_term := [0, 0, 0, 0, 0, 0, 0, 0, 1, 0, 0, 0]
    postings_term_pointers := [(0, 0)]
    word2pos := [("apple", 0)]
    word_freq := [("apple", 1)]
    doc_freq := [("apple", 1)] }

/-- C1: the lookup `get_tuples_for_term_id` is claimed to read exactly the
byte span up to the offset of the next Term ID actually present in the
directory, never interpreting "next" as `term_id + 1`.  The code does use the
arithmetic successor: on the directory `{3: 0, 4: 12}` (ids 0-2 filtered out)
the guard `term_id + 1 < len(pointers)` is `4 < 2 = False`, so `lookup(3)`
reads to end-of-file and returns term 4's record as well, instead of reading
exactly `[0, 12)`; on the directory `{0: 0, 2: 12}` the guard is `1 < 2 =
True` and `pointers[1]` raises `KeyError` instead of returning term 0's span
`[0, 12)`. -/
theorem get_tuples_for_term_id_uses_arithmetic_successor :
    get_tuples_for_term_id (read_inv_index ncFolderA) 3 = .ok [(3, 7, 1), (4, 9, 2)] ∧
    get_tuples_for_term_id (read_inv_index ncFolderA) 3 ≠ .ok [(3, 7, 1)] ∧
    get_tuples_for_term_id (read_inv_index ncFolderB) 0 = .error .keyError := by
  decide

/-- C2 counterexample: on the index built from `["apple"]`, looking up the
never-seen term "pear" by text raises `KeyError` (the raw `self.word2pos[term]`
subscript), and so does `search("pear")`; neither returns an empty result. -/
theorem get_tuples_for_term_absent_raises_cex :
    get_tuples_for_term (read_inv_index tinyFolder) "pear" = .error .keyError ∧
    get_tuples_for_term (read_inv_index tinyFolder) "pear" ≠ .ok [] ∧
    search (read_inv_index tinyFolder) "pear" = .error .keyError ∧
    search (read_inv_index tinyFolder) "pear" ≠ .ok [] := by
  decide

/-- The per-term lookup loop raises as soon as it reaches a token absent from
the vocabulary, so a token list containing one cannot complete: it raises the
first failing token's exception. -/
theorem mapM_get_tuples_error (h : InvertedIndexHandle) (ts : List String) (t : String)
    (htq : t ∈ ts) (ht : dictFind h.word2pos t = none) :
    ∃ e, ts.mapM (get_tuples_for_term h) = .error e := by
  induction ts with
  | nil => exact absurd htq (List.not_mem_nil t)
  | cons s rest ih =>
    rw [List.mapM_cons]
    cases hs : get_tuples_for_term h s with
    | error e =>
      refine ⟨e, ?_⟩
      rfl
    | ok l =>
      have hst : t ≠ s := by
        intro he
        rw [← he] at hs
        unfold get_tuples_for_term at hs
        rw [ht] at hs
        exact Except.noConfusion hs
      have htrest : t ∈ rest := by
        rcases List.mem_cons.mp htq with he | hr
        · exact absurd he hst
        · exact hr
      obtain ⟨e, he⟩ := ih htrest
      refine ⟨e, ?_⟩
      simp only [Bind.bind, Except.bind]
      rw [he]

/-- When every token of the list either is absent from the vocabulary or looks
up cleanly, and at least one is absent, the loop's exception is precisely the
`KeyError` of the first absent token. -/
theorem mapM_get_tuples_keyError (h : InvertedIndexHandle) (ts : List String) (t : String)
    (htq : t ∈ ts) (ht : dictFind h.word2pos t = none)
    (hclean : ∀ s ∈ ts,
      dictFind h.word2pos s = none ∨ (get_tuples_for_term h s).isOk = true) :
    ts.mapM (get_tuples_for_term h) = .error .keyError := by
  induction ts with
  | nil => exact absurd htq (List.not_mem_nil t)
  | cons s rest ih =>
    rw [List.mapM_cons]
    rcases hclean s (List.mem_cons_self s rest) with habs | hok
    · have hs : get_tuples_for_term h s = .error .keyError := by
        unfold get_tuples_for_term
        rw [habs]
      rw [hs]
      rfl
    · cases hs : get_tuples_for_term h s with
      | error e =>
        rw [hs] at hok
        exact Bool.noConfusion hok
      | ok l =>
        have hst : t ≠ s := by
          intro he
          rw [← he] at hs
          unfold get_tuples_for_term at hs
          rw [ht] at hs
          exact Except.noConfusion hs
        have htrest : t ∈ rest := by
          rcases List.mem_cons.mp htq with he | hr
          · exact absurd he hst
          · exact hr
        have hre := ih htrest fun u hu => hclean u (List.mem_cons_of_mem s hu)
        simp only [Bind.bind, Except.bind]
        rw [hre]

/-- C2 amended: lookup by text of a term absent from the vocabulary map raises
`KeyError` rather than returning an empty posting list; and `search` on a
query containing (anywhere in its tokenization) a never-seen term raises an
exception rather than returning an empty result — specifically `KeyError`
when every query term's lookup either hits an absent term or completes
cleanly, which is the case on every well-formed store (on a malformed store an
earlier present term's lookup may raise its own error first, exactly as in the
Python).  Only term ids absent from the offset directory, with the term still
in the vocabulary, yield `[]`. -/
theorem get_tuples_for_term_absent_raises (h : InvertedIndexHandle)
    (term q t : String)
    (hterm : dictFind h.word2pos term = none)
    (htq : t ∈ tokenizer_func q)
    (ht : dictFind h.word2pos t = none) :
    get_tuples_for_term h term = .error .keyError ∧
    (∃ e, search h q = .error e) ∧
    ((∀ s ∈ tokenizer_func q,
        dictFind h.word2pos s = none ∨ (get_tuples_for_term h s).isOk = true) →
      search h q = .error .keyError) := by
  refine ⟨?_, ?_, ?_⟩
  · unfold get_tuples_for_term
    rw [hterm]
  · obtain ⟨e, he⟩ := mapM_get_tuples_error h (tokenizer_func q) t htq ht
    refine ⟨e, ?_⟩
    unfold search search_postings_for_terms
    rw [he]
    rfl
  · intro hclean
    have hke := mapM_get_tuples_keyError h (tokenizer_func q) t htq ht hclean
    unfold search search_postings_for_terms
    rw [hke]
    rfl

/-- C2 amended witness: the amended theorem applied to the index built from
`["apple"]` and the query "apple pear", whose *second* token is the unseen
one — "apple" resolves cleanly and the `KeyError` is raised at "pear". -/
theorem get_tuples_for_term_absent_raises_witness :
    (dictFind (read_inv_index tinyFolder).word2pos "pear" = none ∧
     "pear" ∈ tokenizer_func "apple pear" ∧
     dictFind (read_inv_index tinyFolder).word2pos "pear" = none) ∧
    (get_tuples_for_term (read_inv_index tinyFolder) "pear" = .error .keyError ∧
     (∃ e, search (read_inv_index tinyFolder) "apple pear" = .error e) ∧
     search (read_inv_index tinyFolder) "apple pear" = .error .keyError) := by
  have happ := get_tuples_for_term_absent_raises (read_inv_index tinyFolder) "pear"
    "apple pear" "pear" (by decide) (by decide) (by decide)
  exact ⟨⟨by decide, by decide, by decide⟩, happ.1, happ.2.1, happ.2.2 (by decide)⟩

/-- C4 counterexample: on the index built from `["apple"]`, `search("")` (the
empty query tokenizes to no terms) raises `IndexError` — `intersect_postings`
subscripts `postings_lists_sorted[0]` on an empty list — instead of returning
an empty result. -/
theorem search_empty_query_raises_cex :
    tokenizer_func "" = [] ∧
    search (read_inv_index tinyFolder) "" = .error .indexError ∧
    search (read_inv_index tinyFolder) "" ≠ .ok [] := by
  decide

/-- C4 amended: for every index handle, `search` applied to a query whose
tokenization produces no terms raises `IndexError` (from
`postings_lists_sorted[0]` in `intersect_postings`); it does not return an
empty result. -/
theorem search_empty_tokenization_raises (h : InvertedIndexHandle) (q : String)
    (hq : tokenizer_func q = []) :
    search h q = .error .indexError := by
  unfold search search_postings_for_terms
  rw [hq]
  rfl

/-- C4 amended witness: the amended theorem applied to the index built from
`["apple"]` and the empty query. -/
theorem search_empty_tokenization_raises_witness :
    tokenizer_func "" = [] ∧
    search (read_inv_index tinyFolder) "" = .error .indexError :=
  ⟨by decide, search_empty_tokenization_raises (read_inv_index tinyFolder) "" (by decide)⟩

/-! ### Round-trip of the index metadata (claim C8) -/

/-- C8: whenever `index docs` succeeds and leaves a folder on disk, opening
that folder with `read_inv_index` yields a handle whose vocabulary map,
document-frequency map and word-frequency map are exactly the maps the
in-memory builder (`get_vocabulary_and_tdf_tuples`) produced. -/
theorem index_roundtrip_metadata (docs : List String) (folder : InvIndexFolder)
    (h : index docs = .ok folder) :
    ∃ sorted_tuples,
      get_vocabulary_and_tdf_tuples docs =
        .ok ((read_inv_index folder).word2pos, sorted_tuples,
             (read_inv_index folder).doc_freq, (read_inv_index folder).word_freq) := by
  unfold index at h
  cases hget : get_vocabulary_and_tdf_tuples docs with
  | error e =>
    rw [hget] at h
    simp only [Bind.bind, Except.bind] at h
    exact Except.noConfusion h
  | ok quad =>
    obtain ⟨w2p, sorted_tuples, df, wf⟩ := quad
    rw [hget] at h
    simp only [Bind.bind, Except.bind] at h
    cases hstore : store_postings (build_inv_index_from_tdf_tuples sorted_tuples).1
        (build_inv_index_from_tdf_tuples sorted_tuples).2 with
    | error e =>
      rw [hstore] at h
      simp only [Functor.map, Except.map] at h
      exact Except.noConfusion h
    | ok pb =>
      rw [hstore] at h
      simp only [Functor.map, Except.map, Pure.pure, Except.pure, Except.ok.injEq] at h
      subst h
      exact ⟨sorted_tuples, rfl⟩

/-- The folder `index ["b a", "a"]` produces (two terms, three records). -/
def demoFolder : InvIndexFolder :=
  { data_by_term := [0, 0, 0, 0, 0, 0, 0, 0, 1, 0, 0, 0,
                     1, 0, 0, 0, 0, 0, 0, 0, 1, 0, 0, 0,
                     1, 0, 0, 0, 1, 0, 0, 0, 1, 0, 0, 0]
    postings_term_pointers := [(0, 0), (1, 12)]
    word2pos := [("b", 0), ("a", 1)]
    word_freq := [("b", 1), ("a", 2)]
    doc_freq := [("b", 1), ("a", 2)] }

/-- C8 witness: the round-trip theorem applied to `docs = ["b a", "a"]` and
the folder that `index` concretely produces for it. -/
theorem index_roundtrip_metadata_witness :
    index ["b a", "a"] = .ok demoFolder ∧
    ∃ sorted_tuples,
      get_vocabulary_and_tdf_tuples ["b a", "a"] =
        .ok ((read_inv_index demoFolder).word2pos, sorted_tuples,
             (read_inv_index demoFolder).doc_freq, (read_inv_index demoFolder).word_freq) :=
  ⟨by decide, index_roundtrip_metadata ["b a", "a"] demoFolder (by decide)⟩

/-! ### The posting-list invariant (claim C7) -/

/-! stability of insertionSort -/

/-- Filtering commutes with an ordered insert whose inserted element relates to
every other element satisfying the filter (stability building block). -/
theorem filter_orderedInsert {α : Type} (r : α → α → Prop) [DecidableRel r]
    (p : α → Bool) (a : α) (l : List α)
    (hpr : ∀ b, p a = true → p b = true → r a b) :
    (List.orderedInsert r a l).filter p =
      if p a then a :: l.filter p else l.filter p := by
  rw [List.orderedInsert_eq_take_drop, List.filter_append, List.filter_cons]
  by_cases hpa : p a = true
  · rw [if_pos hpa, if_pos hpa]
    have htw : (List.takeWhile (fun b => decide ¬r a b) l).filter p = [] := by
      rw [List.filter_eq_nil_iff]
      intro b hb
      have hnr : ¬ r a b := of_decide_eq_true (List.mem_takeWhile_imp (p := fun b => decide ¬r a b) hb)
      intro hpb
      exact hnr (hpr b hpa hpb)
    rw [htw, List.nil_append]
    have hl : l.filter p =
        (List.takeWhile (fun b => decide ¬r a b) l).filter p ++
        (List.dropWhile (fun b => decide ¬r a b) l).filter p := by
      rw [← List.filter_append, List.takeWhile_append_dropWhile]
    rw [hl, htw, List.nil_append]
  · rw [if_neg hpa, if_neg hpa]
    have hl : l.filter p =
        (List.takeWhile (fun b => decide ¬r a b) l).filter p ++
        (List.dropWhile (fun b => decide ¬r a b) l).filter p := by
      rw [← List.filter_append, List.takeWhile_append_dropWhile]
    rw [hl]

/-- Stability of `List.insertionSort` in filter form: when any two elements
satisfying `p` are related by `r`, sorting does not change the `p`-sublist.
Instantiated with `r` = non-strict key order and `p` = key equality, this says
a stable sort by key preserves the relative order of tuples with equal keys. -/
theorem filter_insertionSort {α : Type} (r : α → α → Prop) [DecidableRel r]
    (p : α → Bool) (l : List α)
    (hpr : ∀ a b, p a = true → p b = true → r a b) :
    (List.insertionSort r l).filter p = l.filter p := by
  induction l with
  | nil => rfl
  | cons a l ih =>
    rw [List.insertionSort, filter_orderedInsert r p a _ (fun b => hpr a b), ih,
      List.filter_cons]

/-! a generic foldl invariant -/

/-- An invariant preserved by every step of a fold holds of the result. -/
theorem foldl_invariant {α β : Type} (P : β → Prop) (f : β → α → β) (l : List α) (b : β)
    (h0 : P b) (hstep : ∀ y a, P y → P (f y a)) : P (l.foldl f b) := by
  induction l generalizing b with
  | nil => exact h0
  | cons a l ih => exact ih (f b a) (hstep b a h0)

/-! keys of get_word_counts are distinct -/

/-- The keys of the per-document count dict are pairwise distinct. -/
theorem get_word_counts_keys_nodup (words : List String) :
    ((get_word_counts words).map fun p => p.1).Nodup := by
  refine foldl_invariant
    (fun (m : List (String × Nat)) => (m.map fun p => p.1).Nodup) _ words [] (by simp) ?_
  intro m w hm
  by_cases hany : m.any fun p => p.1 == w
  · rw [if_pos hany]
    have : ((m.map fun p => if p.1 == w then (p.1, p.2 + 1) else p).map fun p => p.1) =
        m.map fun p => p.1 := by
      rw [List.map_map]
      refine List.map_congr_left ?_
      intro p _
      simp only [Function.comp_apply]
      split <;> rfl
    rw [this]
    exact hm
  · rw [if_neg hany]
    rw [List.map_append]
    refine hm.append (by simp) ?_
    intro x hx hx'
    simp only [List.map_cons, List.map_nil, List.mem_singleton] at hx'
    subst hx'
    rw [List.any_eq_true] at hany
    rcases List.mem_map.mp hx with ⟨q, hq, hqx⟩
    exact hany ⟨q, hq, by rw [hqx]; exact beq_self_eq_true _⟩

/-- `build_word2pos` builds a dict with distinct keys whose values are exactly
`0, 1, ..., n-1` in insertion order (fresh ids are `len(word2pos)`). -/
theorem build_word2pos_wf (docs : List String) :
    ((build_word2pos docs).map fun p => p.1).Nodup ∧
    (build_word2pos docs).map (fun p => p.2) =
      List.range (build_word2pos docs).length := by
  unfold build_word2pos
  refine foldl_invariant
    (fun (m : List (String × Nat)) =>
      ((m.map fun p => p.1).Nodup ∧ m.map (fun p => p.2) = List.range m.length))
    _ docs [] (by simp) ?_
  intro m doc hm
  refine foldl_invariant
    (fun (m : List (String × Nat)) =>
      ((m.map fun p => p.1).Nodup ∧ m.map (fun p => p.2) = List.range m.length))
    _ (tokenizer_func doc) m hm ?_
  intro m' w hm'
  by_cases hany : m'.any fun p => p.1 == w
  · rw [if_pos hany]
    exact hm'
  · rw [if_neg hany]
    constructor
    · rw [List.map_append]
      refine hm'.1.append (by simp) ?_
      intro x hx hx'
      simp only [List.map_cons, List.map_nil, List.mem_singleton] at hx'
      subst hx'
      rcases List.mem_map.mp hx with ⟨q, hq, hqx⟩
      rw [List.any_eq_true] at hany
      exact hany ⟨q, hq, by rw [hqx]; exact beq_self_eq_true _⟩
    · rw [List.map_append, hm'.2, List.length_append]
      simp [List.range_succ]

/-- A successful dict lookup returns a pair of the list. -/
theorem dictFind_mem {α β : Type} [BEq α] [LawfulBEq α]
    {m : List (α × β)} {k : α} {v : β} (h : dictFind m k = some v) :
    (k, v) ∈ m := by
  unfold dictFind at h
  cases hf : m.find? fun p => p.1 == k with
  | none => rw [hf] at h; exact Option.noConfusion h
  | some q =>
    rw [hf] at h
    simp only [Option.map_some'] at h
    have hq1 : q.1 = k := by
      have := List.find?_some hf
      exact eq_of_beq this
    have hq2 : q.2 = v := Option.some.inj h
    have : q = (k, v) := Prod.ext hq1 hq2
    rw [← this]
    exact List.mem_of_find?_eq_some hf

/-- In a dict with pairwise-distinct values, lookup is injective on keys. -/
theorem dictFind_inj {m : List (String × Nat)}
    (hv : (m.map fun p => p.2).Nodup)
    {k1 k2 : String} {v : Nat}
    (h1 : dictFind m k1 = some v) (h2 : dictFind m k2 = some v) : k1 = k2 := by
  have m1 := dictFind_mem h1
  have m2 := dictFind_mem h2
  have := List.inj_on_of_nodup_map hv m1 m2 rfl
  exact congrArg Prod.fst this

/-- Distinct words receive distinct term ids: `build_word2pos` lookups are
injective. -/
theorem build_word2pos_inj (docs : List String) {k1 k2 : String} {v : Nat}
    (h1 : dictFind (build_word2pos docs) k1 = some v)
    (h2 : dictFind (build_word2pos docs) k2 = some v) : k1 = k2 := by
  refine dictFind_inj ?_ h1 h2
  rw [(build_word2pos_wf docs).2]
  exact List.nodup_range _

/-- When the tuple-appending loop of `build_document_tuples` succeeds, it
appends one tuple `(word2pos[word], i, count)` per count entry, in order, and
every word was found in the vocabulary. -/
theorem appendDocTuples_ok (w2p : List (String × Nat)) (i : Nat)
    (cnts : List (String × Nat)) (tuples res : List (Nat × Nat × Nat))
    (h : appendDocTuples w2p i cnts tuples = .ok res) :
    res = tuples ++ cnts.map (fun p => ((dictFind w2p p.1).getD 0, i, p.2)) ∧
    ∀ p ∈ cnts, (dictFind w2p p.1).isSome := by
  induction cnts generalizing tuples with
  | nil =>
    unfold appendDocTuples at h
    simp only [List.foldlM_nil] at h
    have : tuples = res := by
      have := h
      simp only [pure, Except.pure] at this
      exact Except.ok.inj this
    simp [← this]
  | cons p cnts ih =>
    unfold appendDocTuples at h
    rw [List.foldlM_cons] at h
    cases hfind : dictFind w2p p.1 with
    | none =>
      rw [hfind] at h
      simp only [Bind.bind, Except.bind] at h
      exact Except.noConfusion h
    | some tid =>
      rw [hfind] at h
      simp only [Bind.bind, Except.bind] at h
      have h' : appendDocTuples w2p i cnts (tuples ++ [(tid, i, p.2)]) = .ok res := h
      rcases ih _ h' with ⟨hres, hall⟩
      constructor
      · rw [hres, List.map_cons, hfind]
        simp [List.append_assoc]
      · intro q hq
        rcases List.mem_cons.mp hq with rfl | hq'
        · rw [hfind]; rfl
        · exact hall q hq'

/-- Lists of at most one element are vacuously chains. -/
theorem chain'_of_length_le_one {α : Type} {R : α → α → Prop} (l : List α)
    (h : l.length ≤ 1) : List.Chain' R l := by
  cases l with
  | nil => exact List.chain'_nil
  | cons a l' =>
    cases l' with
    | nil => exact List.chain'_singleton a
    | cons b l'' => simp at h

/-- A list with pairwise-distinct keys contains at most one element per key. -/
theorem length_filter_key_le_one {α : Type} (f : α → Nat) (l : List α)
    (h : (l.map f).Nodup) (t : Nat) :
    (l.filter fun x => f x == t).length ≤ 1 := by
  induction l with
  | nil => simp
  | cons a l ih =>
    rw [List.map_cons, List.nodup_cons] at h
    rw [List.filter_cons]
    by_cases ha : (f a == t) = true
    · rw [if_pos ha]
      have hnil : l.filter (fun x => f x == t) = [] := by
        rw [List.filter_eq_nil_iff]
        intro b hb hfb
        exact h.1 (List.mem_map.mpr ⟨b, hb, by rw [eq_of_beq hfb, ← eq_of_beq ha]⟩)
      rw [hnil]
      simp
    · rw [if_neg ha]
      exact ih h.2

/-- Invariant of the document loop of `build_document_tuples`: if the
accumulated tuples have, for every term id, strictly increasing doc ids all
below the current document index, then so does the final tuple list.  Each
document contributes at most one tuple per term id (count keys are distinct
words and `word2pos` is injective), and its doc id exceeds all earlier ones. -/
theorem go_chain (w2p : List (String × Nat))
    (hinj : ∀ {k1 k2 : String} {v : Nat},
      dictFind w2p k1 = some v → dictFind w2p k2 = some v → k1 = k2)
    (docs : List String) :
    ∀ (i : Nat) (tuples : List (Nat × Nat × Nat)) (dfs wfs : List (String × Nat))
      (T : List (Nat × Nat × Nat)) (DF WF : List (String × Nat)),
    (∀ r ∈ tuples, r.2.1 < i) →
    (∀ t, List.Chain' (· < ·) ((tuples.filter fun r => r.1 == t).map fun r => r.2.1)) →
    build_document_tuples_go w2p i docs (tuples, dfs, wfs) = .ok (T, DF, WF) →
    ∀ t, List.Chain' (· < ·) ((T.filter fun r => r.1 == t).map fun r => r.2.1) := by
  induction docs with
  | nil =>
    intro i tuples dfs wfs T DF WF hlt hch h t
    unfold build_document_tuples_go at h
    have hT : tuples = T := congrArg Prod.fst (Except.ok.inj h)
    rw [← hT]
    exact hch t
  | cons doc rest ih =>
    intro i tuples dfs wfs T DF WF hlt hch h t
    unfold build_document_tuples_go at h
    dsimp only at h
    cases happ : appendDocTuples w2p i (get_word_counts (tokenizer_func doc)) tuples with
    | error e => rw [happ] at h; exact Except.noConfusion h
    | ok tuples' =>
      rw [happ] at h
      rcases appendDocTuples_ok _ _ _ _ _ happ with ⟨hres, hall⟩
      have hkeysnd : (((get_word_counts (tokenizer_func doc)).map
          fun p => ((dictFind w2p p.1).getD 0, i, p.2)).map fun r => r.2.1) =
          (get_word_counts (tokenizer_func doc)).map fun _ => i := by
        rw [List.map_map]; rfl
      -- term ids of the new tuples are pairwise distinct
      have hnewskeys : (((get_word_counts (tokenizer_func doc)).map
          fun p => ((dictFind w2p p.1).getD 0, i, p.2)).map fun r => r.1).Nodup := by
        rw [List.map_map]
        have hk := get_word_counts_keys_nodup (tokenizer_func doc)
        have hcnd : (get_word_counts (tokenizer_func doc)).Nodup := hk.of_map
        refine hcnd.map_on ?_
        intro p hp q hq hfe
        simp only [Function.comp_apply] at hfe
        rcases Option.isSome_iff_exists.mp (hall p hp) with ⟨v, hv⟩
        rcases Option.isSome_iff_exists.mp (hall q hq) with ⟨w, hw⟩
        rw [hv, hw] at hfe
        simp only [Option.getD_some] at hfe
        subst hfe
        have hkeq : p.1 = q.1 := hinj hv hw
        exact List.inj_on_of_nodup_map hk hp hq hkeq
      refine ih (i + 1) tuples' _ _ T DF WF ?_ ?_ h t
      · intro r hr
        rw [hres] at hr
        rcases List.mem_append.mp hr with hr | hr
        · exact Nat.lt_trans (hlt r hr) (Nat.lt_succ_self i)
        · rcases List.mem_map.mp hr with ⟨p, -, hpr⟩
          rw [← hpr]
          exact Nat.lt_succ_self i
      · intro t'
        rw [hres, List.filter_append, List.map_append]
        refine List.Chain'.append (hch t') ?_ ?_
        · refine chain'_of_length_le_one _ ?_
          rw [List.length_map]
          exact length_filter_key_le_one _ _ hnewskeys t'
        · intro x hx y hy
          have hx1 : x ∈ (tuples.filter fun r => r.1 == t').map fun r => r.2.1 :=
            List.mem_of_mem_getLast? hx
          have hy1 : y ∈ ((((get_word_counts (tokenizer_func doc)).map
              fun p => ((dictFind w2p p.1).getD 0, i, p.2)).filter
                fun r => r.1 == t').map fun r => r.2.1) :=
            List.mem_of_mem_head? hy
          rcases List.mem_map.mp hx1 with ⟨r, hr, hrx⟩
          have hxlt : x < i := by
            rw [← hrx]
            exact hlt r (List.mem_of_mem_filter hr)
          rcases List.mem_map.mp hy1 with ⟨s, hs, hsy⟩
          have hsmem := List.mem_of_mem_filter hs
          rcases List.mem_map.mp hsmem with ⟨p, -, hps⟩
          have hyi : y = i := by rw [← hsy, ← hps]
          rw [hyi]
          exact hxlt

/-- C7: for every document sequence and every term id, the posting list
emitted by the vocabulary builder — the group of tuples for that term id after
the stable sort by term id, which is what the store writes contiguously — has
strictly increasing doc ids. -/
theorem posting_doc_ids_strictly_ascending (docs : List String)
    (w2p : List (String × Nat)) (st : List (Nat × Nat × Nat))
    (df wf : List (String × Nat))
    (h : get_vocabulary_and_tdf_tuples docs = .ok (w2p, st, df, wf)) (t : Nat) :
    List.Chain' (· < ·) ((grouped_data st t).map fun r => r.2.1) := by
  unfold get_vocabulary_and_tdf_tuples at h
  dsimp only at h
  cases hb : build_document_tuples docs (build_word2pos docs) with
  | error e =>
    rw [hb] at h
    simp only [Bind.bind, Except.bind] at h
    exact Except.noConfusion h
  | ok triple =>
    obtain ⟨doc_tuples, dfs, wfs⟩ := triple
    rw [hb] at h
    simp only [Bind.bind, Except.bind, Pure.pure, Except.pure, Except.ok.injEq,
      Prod.mk.injEq] at h
    obtain ⟨hw, hst, hdf, hwf⟩ := h
    have hstab : st.filter (fun r => r.1 == t) = doc_tuples.filter (fun r => r.1 == t) := by
      rw [← hst]
      unfold sortTuplesByTermId
      refine filter_insertionSort (fun a b => a.1 ≤ b.1) _ doc_tuples ?_
      intro a b ha hb'
      rw [eq_of_beq ha, eq_of_beq hb']
    have hchain := go_chain (build_word2pos docs)
      (fun h1 h2 => build_word2pos_inj docs h1 h2) docs 0 [] [] [] doc_tuples dfs wfs
      (by simp) (by intro t'; simp [List.Chain']) hb t
    unfold grouped_data
    rw [hstab]
    exact hchain


/-- C7 witness: the builder run on `["b a", "a"]` and the resulting posting
list of term id 1 (the word "a", present in both documents). -/
theorem posting_doc_ids_strictly_ascending_witness :
    get_vocabulary_and_tdf_tuples ["b a", "a"] =
      .ok ([("b", 0), ("a", 1)], [(0, 0, 1), (1, 0, 1), (1, 1, 1)],
           [("b", 1), ("a", 2)], [("b", 1), ("a", 2)]) ∧
    List.Chain' (· < ·)
      ((grouped_data [(0, 0, 1), (1, 0, 1), (1, 1, 1)] 1).map fun r => r.2.1) :=
  ⟨by rfl,
   posting_doc_ids_strictly_ascending ["b a", "a"] _ _ _ _ (by rfl) 1⟩

/-! ## Columnar row store (`table_serializer.py`)

The serializer is parametric in the things the source delegates to libraries:
`struct.Struct(self.struct_fmt).pack` (the compiled fixed-column packer),
`zlib.compress`/`zlib.decompress`, and `struct.unpack(self.struct_fmt, ·)`;
the embedding passes them as function arguments, since every claim below holds
for an arbitrary choice of these functions.  The `I` length-prefix format and
UTF-8 encoding are modelled exactly. -/

/-- The constructor state of `TableSerializer`: the schema (column name to
struct format code, or "str" for variable-length columns), the list of
variable-length columns, and the compression flag. -/
structure TableSerializer where
  schema : List (String × String)
  variable_length_columns : List String
  compress : Bool
  deriving DecidableEq, Repr

/-- `self.columns`: schema columns that are not variable-length, in schema
order. -/
def TScolumns (ts : TableSerializer) : List String :=
  (ts.schema.map fun p => p.1).filter fun k => !(ts.variable_length_columns.contains k)

/-- A cell of the input table: a fixed-width scalar or a Python string. -/
inductive CellV where
  | intv (n : Int)
  | strv (s : String)
  deriving DecidableEq, Repr

/-- The input `pandas.DataFrame`: its column set, and its rows as attribute
maps (what `df.itertuples(index=False)` exposes through `getattr`). -/
structure DataFrame where
  columns : List String
  rows : List (List (String × CellV))
  deriving DecidableEq, Repr

/-- `getattr(row, col)`: `AttributeError` when the attribute is missing. -/
def getattrCell (row : List (String × CellV)) (col : String) : Except PyErr CellV :=
  match dictFind row col with
  | none => .error .attributeError
  | some v => .ok v

/-- `s.encode('utf-8')` as byte values. -/
def utf8_bytes (s : String) : List Nat :=
  (s.toList.map String.utf8EncodeChar).flatten.map fun b => b.toNat

/-- `struct.pack("I", n)`: four little-endian bytes of an unsigned 32-bit
value, `struct.error` out of range. -/
def pack_u32 (n : Nat) : Except PyErr (List Nat) :=
  if n < 2 ^ 32 then .ok [n % 256, n / 256 % 256, n / 65536 % 256, n / 16777216 % 256]
  else .error .structError

/-- `struct.unpack("I", b)`: exactly four little-endian bytes. -/
def unpack_u32 (b : List Nat) : Except PyErr Nat :=
  match b with
  | [b0, b1, b2, b3] => .ok (b0 + 256 * b1 + 65536 * b2 + 16777216 * b3)
  | _ => .error .structError

/-- What `serialize` has written so far: the bytes of `bin_path`, the lines of
the `.idx` offset file, and the in-memory `record_offsets`. -/
structure SerOut where
  bin : List Nat
  idx : List String
  record_offsets : List Nat
  deriving DecidableEq, Repr

/-- `TableSerializer._validate_schema` (lines 73-85): the first schema column
missing from the DataFrame raises `ValueError` naming it. -/
def validate_schema (ts : TableSerializer) (df : DataFrame) : Option PyErr :=
  match ts.schema.find? fun p => !(df.columns.contains p.1) with
  | some p => some (.valueError ("Missing column in DataFrame: " ++ p.1))
  | none => none

/-- The variable-length column loop of `serialize` (lines 115-122): encode,
optionally compress, write a 4-byte length prefix and the payload, advance the
offset by `4 + length`.  Returns (bytes appended to the blob, new offset). -/
def write_var_cols (compressFn : List Nat → List Nat) (compress : Bool)
    (var_cols : List String) (row : List (String × CellV)) (offset : Nat) :
    Except PyErr (List Nat × Nat) :=
  var_cols.foldlM
    (fun acc col => do
      let cell ← getattrCell row col
      match cell with
      | .intv _ => .error .attributeError
      | .strv s =>
        let raw := utf8_bytes s
        let raw := if compress then compressFn raw else raw
        let lenb ← pack_u32 raw.length
        pure (acc.1 ++ lenb ++ raw, acc.2 + 4 + raw.length))
    ([], offset)

/-- The row loop of `TableSerializer.serialize` (lines 101-122).  Each row
first records its offset (appended to `record_offsets` and written to the
index file).  When there are fixed columns the source then evaluates
`fixed_values` and `packed_fixed = packer(*fixed_values)` and executes
`f_bin.write(packed)` — but no variable named `packed` exists in `serialize`,
so this statement raises `NameError` and aborts the whole write.  Only when
there are no fixed columns does the loop reach the variable-length columns. -/
def serialize_rows (ts : TableSerializer)
    (packerFn : List CellV → Except PyErr (List Nat))
    (compressFn : List Nat → List Nat) :
    List (List (String × CellV)) → SerOut → Nat → SerOut × Option PyErr
  | [], out, _ => (out, none)
  | row :: rest, out, offset =>
    let out1 : SerOut :=
      { out with idx := out.idx ++ [toString offset],
                 record_offsets := out.record_offsets ++ [offset] }
    if (TScolumns ts).isEmpty then
      match write_var_cols compressFn ts.compress ts.variable_length_columns row offset with
      | .error e => (out1, some e)
      | .ok (bytes, offset') =>
        serialize_rows ts packerFn compressFn rest { out1 with bin := out1.bin ++ bytes } offset'
    else
      match (TScolumns ts).mapM (getattrCell row) with
      | .error e => (out1, some e)
      | .ok fixed_values =>
        match packerFn fixed_values with
        | .error e => (out1, some e)
        | .ok _packed_fixed => (out1, some .nameError)

/-- `TableSerializer.serialize` (lines 87-122): validate the schema first —
before opening either file — then write the rows.  Returns the files as left
on disk and the exception, if one was raised. -/
def serialize (ts : TableSerializer)
    (packerFn : List CellV → Except PyErr (List Nat))
    (compressFn : List Nat → List Nat)
    (df : DataFrame) : SerOut × Option PyErr :=
  match validate_schema ts df with
  | some e => ({ bin := [], idx := [], record_offsets := [] }, some e)
  | none => serialize_rows ts packerFn compressFn df.rows
      { bin := [], idx := [], record_offsets := [] } 0

/-! ### Schema validation happens before any write (claim C9) -/

/-- C9: serializing a DataFrame that is missing at least one declared schema
column raises a `ValueError` naming a missing declared column, and does so
with both the row blob and the offset index still empty — `_validate_schema`
runs before either file is opened. -/
theorem serialize_missing_column_fails_fast (ts : TableSerializer)
    (packerFn : List CellV → Except PyErr (List Nat)) (compressFn : List Nat → List Nat)
    (df : DataFrame)
    (h : ∃ c ∈ ts.schema.map fun p => p.1, df.columns.contains c = false) :
    ∃ c, c ∈ (ts.schema.map fun p => p.1) ∧ df.columns.contains c = false ∧
      serialize ts packerFn compressFn df =
        ({ bin := [], idx := [], record_offsets := [] },
         some (.valueError ("Missing column in DataFrame: " ++ c))) := by
  have hsome : (ts.schema.find? fun p => !(df.columns.contains p.1)).isSome := by
    rw [List.find?_isSome]
    obtain ⟨c, hc, hnc⟩ := h
    obtain ⟨p, hp, hpc⟩ := List.mem_map.mp hc
    refine ⟨p, hp, ?_⟩
    rw [hpc, hnc]
    rfl
  obtain ⟨p, hfind⟩ := Option.isSome_iff_exists.mp hsome
  refine ⟨p.1, List.mem_map.mpr ⟨p, List.mem_of_find?_eq_some hfind, rfl⟩, ?_, ?_⟩
  · have hp := List.find?_some hfind
    simpa using hp
  · unfold serialize validate_schema
    rw [hfind]

/-- A packer stand-in for `struct.Struct(fmt).pack`: four bytes per value. -/
def demoPacker (cells : List CellV) : Except PyErr (List Nat) :=
  .ok (List.replicate (4 * cells.length) 0)

/-- The schema of the repository's `test_table_serializer.py` fixtures. -/
def demoTS4 : TableSerializer :=
  { schema := [("id", "i"), ("value", "f"), ("title", "str"), ("description", "str")]
    variable_length_columns := ["title", "description"]
    compress := true }

/-- The `test_missing_column_raises` input: the "description" column absent. -/
def demoMissingDF : DataFrame :=
  { columns := ["id", "value", "title"]
    rows := [[("id", .intv 1), ("value", .intv 2), ("title", .strv "red car")]] }

/-- C9 witness: the fail-fast theorem at the repository's own missing-column
test fixture. -/
theorem serialize_missing_column_fails_fast_witness :
    (∃ c ∈ demoTS4.schema.map fun p => p.1, demoMissingDF.columns.contains c = false) ∧
    (∃ c, c ∈ (demoTS4.schema.map fun p => p.1) ∧ demoMissingDF.columns.contains c = false ∧
      serialize demoTS4 demoPacker id demoMissingDF =
        ({ bin := [], idx := [], record_offsets := [] },
         some (.valueError ("Missing column in DataFrame: " ++ c)))) :=
  ⟨by decide,
   serialize_missing_column_fails_fast demoTS4 demoPacker id demoMissingDF (by decide)⟩

/-! ### `serialize` crashes on the `f_bin.write(packed)` NameError (claim C3) -/

/-- Whenever the serializer has at least one fixed-width column and the
DataFrame at least one row, `serialize` raises: either schema validation
fails, or the very first row reaches `f_bin.write(packed)` — `packed` is an
undefined name (`packed_fixed` was assigned) — and `NameError` aborts the
write.  No table with a fixed column can round-trip through `serialize`. -/
theorem serialize_fixed_columns_never_succeeds (ts : TableSerializer)
    (packerFn : List CellV → Except PyErr (List Nat)) (compressFn : List Nat → List Nat)
    (df : DataFrame)
    (hcols : (TScolumns ts).isEmpty = false) (hrows : df.rows ≠ []) :
    (serialize ts packerFn compressFn df).2.isSome := by
  unfold serialize
  cases hv : validate_schema ts df with
  | some e => simp
  | none =>
    cases hr : df.rows with
    | nil => exact absurd hr hrows
    | cons row rest =>
      unfold serialize_rows
      rw [hcols]
      simp only [Bool.false_eq_true, if_false]
      split
      · simp
      · split <;> simp

/-- The serializer of the class docstring example:
`schema = {'id': 'I', 'value': 'f', 'comment': 'str'}`, no compression. -/
def demoTS : TableSerializer :=
  { schema := [("id", "i"), ("value", "f"), ("comment", "str")]
    variable_length_columns := ["comment"]
    compress := false }

/-- The docstring example table (floats stood in by scalars; the packer is
never reached past `packer(*fixed_values)` anyway). -/
def demoDF : DataFrame :=
  { columns := ["id", "value", "comment"]
    rows := [[("id", .intv 1), ("value", .intv 11), ("comment", .strv "hello")],
             [("id", .intv 2), ("value", .intv 22), ("comment", .strv "world")]] }

/-- C3: evaluating `serialize` on the class docstring's own round-trip example
(two rows, fixed columns `id`, `value`, variable column `comment`): the run
aborts with `NameError` on the first row, right after the row's offset line
"0" was written to the index file and before any blob byte — so
`read_rows_from_bin` has nothing to read back and the documented round-trip
(also asserted by `test_serialize_and_read`) cannot succeed. -/
theorem serialize_docstring_example_nameError :
    serialize demoTS demoPacker id demoDF =
      ({ bin := [], idx := ["0"], record_offsets := [0] }, some .nameError) := by
  decide

/-! ### The four read strategies (claim C6)

`read_rows_from_bin` / `read_rows_parallel` / `read_rows_parallel_mmap` /
`read_rows_parallel_multiprocess` decode the same binary records.  The reader
state a `TableSerializer` instance carries is bundled in `ReaderCtx`:
`columns`, `variable_length_columns`, `compress`, plus the library functions
the code calls — `struct.calcsize/unpack` on the compiled format string,
`zlib.decompress` and `bytes.decode('utf-8')` — as opaque function fields,
since the decode routines call them on equal arguments and every claim holds
for an arbitrary choice.  Thread/process scheduling is modelled by the fact
that `executor.map` (and the `results[i] = ...` slots of `read_rows_parallel`)
returns results in submission order, so each variant is the in-order map of
its per-row routine over the requested rows. -/

/-- Reader-side state of a `TableSerializer` (fixed-value type `F`). -/
structure ReaderCtx (F : Type) where
  columns : List String
  variable_length_columns : List String
  compress : Bool
  fixed_size : Nat
  unpackFixed : List Nat → Except PyErr (List F)
  decompressFn : List Nat → Except PyErr (List Nat)
  utf8decode : List Nat → Except PyErr String

/-- One decoded row value: a fixed-column scalar or a decoded string. -/
inductive RowVal (F : Type) where
  | fixedv (v : F)
  | strv (s : String)
  deriving DecidableEq

/-- `f.read(n)` with the file at position `pos`: up to `n` bytes, fewer at
end-of-file, empty past it. -/
def fread (blob : List Nat) (pos n : Nat) : List Nat :=
  (blob.drop pos).take n

/-- The variable-column loop of `_read_single_row` (lines 184-193): read the
4-byte length prefix — `break` if the file is exhausted, returning the partial
row — then the payload, optionally decompress, decode UTF-8.  The file
position advances by the bytes actually read. -/
def read_var_cols {F : Type} (ctx : ReaderCtx F) (blob : List Nat) :
    List String → Nat → List (String × RowVal F) →
    Except PyErr (List (String × RowVal F))
  | [], _, result => .ok result
  | var_col :: rest, pos, result =>
    let length_bytes := fread blob pos 4
    if length_bytes.isEmpty then .ok result
    else do
      let length ← unpack_u32 length_bytes
      let raw := fread blob (pos + length_bytes.length) length
      let raw' ← if ctx.compress then ctx.decompressFn raw else pure raw
      let s ← ctx.utf8decode raw'
      read_var_cols ctx blob rest (pos + length_bytes.length + raw.length)
        (result ++ [(var_col, .strv s)])

/-- `TableSerializer._read_single_row` (lines 166-193): fixed block first
(when fixed columns exist), then the variable columns in declared order. -/
def read_single_row {F : Type} (ctx : ReaderCtx F) (blob : List Nat) (pos : Nat) :
    Except PyErr (List (String × RowVal F)) :=
  if ctx.columns.isEmpty then
    read_var_cols ctx blob ctx.variable_length_columns pos []
  else do
    let fixed_bytes := fread blob pos ctx.fixed_size
    let fixed_values ← ctx.unpackFixed fixed_bytes
    read_var_cols ctx blob ctx.variable_length_columns (pos + fixed_bytes.length)
      ((ctx.columns.zip fixed_values).map fun p => (p.1, RowVal.fixedv p.2))

/-- The variable-column loop of `read_from_mmap` (lines 278-285): cursor
arithmetic over a memoryview of the whole mapping from `pos`; no end-of-file
break, and the cursor advances by the *requested* length. -/
def mmap_var_cols {F : Type} (ctx : ReaderCtx F) (view : List Nat) :
    List String → Nat → List (String × RowVal F) →
    Except PyErr (List (String × RowVal F))
  | [], _, result => .ok result
  | var_col :: rest, cursor, result => do
    let length ← unpack_u32 ((view.drop cursor).take 4)
    let raw := (view.drop (cursor + 4)).take length
    let raw' ← if ctx.compress then ctx.decompressFn raw else pure raw
    let s ← ctx.utf8decode raw'
    mmap_var_cols ctx view rest (cursor + 4 + length) (result ++ [(var_col, .strv s)])

/-- `read_from_mmap` inside `read_rows_parallel_mmap` (lines 266-287). -/
def read_from_mmap {F : Type} (ctx : ReaderCtx F) (blob : List Nat) (pos : Nat) :
    Except PyErr (List (String × RowVal F)) :=
  let view := blob.drop pos
  if ctx.columns.isEmpty then
    mmap_var_cols ctx view ctx.variable_length_columns 0 []
  else do
    let fixed_values ← ctx.unpackFixed (view.take ctx.fixed_size)
    mmap_var_cols ctx view ctx.variable_length_columns ctx.fixed_size
      ((ctx.columns.zip fixed_values).map fun p => (p.1, RowVal.fixedv p.2))

/-- The variable-column loop of `read_from_disk` (lines 322-327): like the
sequential one but with no end-of-file break. -/
def disk_var_cols {F : Type} (ctx : ReaderCtx F) (blob : List Nat) :
    List String → Nat → List (String × RowVal F) →
    Except PyErr (List (String × RowVal F))
  | [], _, result => .ok result
  | var_col :: rest, pos, result => do
    let length_bytes := fread blob pos 4
    let length ← unpack_u32 length_bytes
    let raw := fread blob (pos + length_bytes.length) length
    let raw' ← if ctx.compress then ctx.decompressFn raw else pure raw
    let s ← ctx.utf8decode raw'
    disk_var_cols ctx blob rest (pos + length_bytes.length + raw.length)
      (result ++ [(var_col, .strv s)])

/-- `read_from_disk` inside `read_rows_parallel_multiprocess` (lines 310-328). -/
def read_from_disk {F : Type} (ctx : ReaderCtx F) (blob : List Nat) (pos : Nat) :
    Except PyErr (List (String × RowVal F)) :=
  if ctx.columns.isEmpty then
    disk_var_cols ctx blob ctx.variable_length_columns pos []
  else do
    let fixed_bytes := fread blob pos ctx.fixed_size
    let fixed_values ← ctx.unpackFixed fixed_bytes
    disk_var_cols ctx blob ctx.variable_length_columns (pos + fixed_bytes.length)
      ((ctx.columns.zip fixed_values).map fun p => (p.1, RowVal.fixedv p.2))

/-- `offsets[idx]` on the loaded offset list: `IndexError` out of range. -/
def listIndex {α : Type} (l : List α) (i : Nat) : Except PyErr α :=
  match l.get? i with
  | none => .error .indexError
  | some x => .ok x

/-- `read_rows_from_bin` (lines 195-211): seek to each requested row's offset
and decode it with `_read_single_row`, in request order. -/
def read_rows_from_bin {F : Type} (ctx : ReaderCtx F) (blob : List Nat)
    (offsets indices : List Nat) :
    Except PyErr (List (List (String × RowVal F))) :=
  indices.mapM fun idx => do
    let off ← listIndex offsets idx
    read_single_row ctx blob off

/-- The thread worker `read_one(i)` of `read_rows_parallel` (lines 239-242):
open a handle, seek `offsets[indices[i]]`, decode with `_read_single_row`. -/
def read_one {F : Type} (ctx : ReaderCtx F) (blob : List Nat)
    (offsets indices : List Nat) (i : Nat) :
    Except PyErr (List (String × RowVal F)) := do
  let idx ← listIndex indices i
  let off ← listIndex offsets idx
  read_single_row ctx blob off

/-- `read_rows_parallel` (lines 225-247): `executor.map(read_one, range(len(indices)))`
submits one task per slot and the `with` block waits for them, but the
returned iterator is never consumed — a worker's exception stays inside its
future and is swallowed, leaving `results[i]` as `None` — so the call itself
never raises and returns the slot list, `None` where the worker raised. -/
def read_rows_parallel {F : Type} (ctx : ReaderCtx F) (blob : List Nat)
    (offsets indices : List Nat) :
    List (Option (List (String × RowVal F))) :=
  (List.range indices.length).map fun i =>
    match read_one ctx blob offsets indices i with
    | .ok row => some row
    | .error _ => none

/-- `read_rows_parallel_mmap` (lines 249-292): `record_positions` is built
eagerly — every `offsets[i]` subscript happens before any decode — then
`mmap.mmap(f_bin.fileno(), 0)` maps the blob (raising `ValueError` on an
empty file), and the thread pool maps `read_from_mmap` over the positions in
order. -/
def read_rows_parallel_mmap {F : Type} (ctx : ReaderCtx F) (blob : List Nat)
    (offsets indices : List Nat) :
    Except PyErr (List (List (String × RowVal F))) := do
  let record_positions ← indices.mapM fun i => do
    let off ← listIndex offsets i
    pure (i, off)
  if blob.isEmpty then .error (.valueError "cannot mmap an empty file")
  else record_positions.mapM fun x => read_from_mmap ctx blob x.2

/-- `read_rows_parallel_multiprocess` (lines 295-333): `positions` is built
eagerly, then `list(executor.map(read_from_disk, positions))` dispatches the
worker to the process pool.  `read_from_disk` is a function local to the
method, which `ProcessPoolExecutor` must pickle to dispatch and cannot, so
any nonempty task list raises `PicklingError` when the `list(...)` consumes
the iterator; only an empty `positions` (no task is ever pickled) returns,
with an empty result.  The worker's body is modelled by `read_from_disk`
above, which the dispatch never reaches. -/
def read_rows_parallel_multiprocess {F : Type} (ctx : ReaderCtx F) (blob : List Nat)
    (offsets indices : List Nat) :
    Except PyErr (List (List (String × RowVal F))) := do
  let positions ← indices.mapM fun i => do
    let off ← listIndex offsets i
    pure off
  match positions with
  | [] => pure []
  | _ :: _ => .error .picklingError

/-- The little-endian 32-bit value of the four bytes at `pos` (0 when they do
not all exist; only used under a bound guaranteeing they do). -/
def u32_at (blob : List Nat) (pos : Nat) : Nat :=
  match unpack_u32 (fread blob pos 4) with
  | .ok v => v
  | .error _ => 0

/-- The next `n` variable-length fields (4-byte prefix plus payload) lie
entirely inside the blob, starting at `pos`. -/
def var_complete (blob : List Nat) : Nat → Nat → Bool
  | 0, _ => true
  | n + 1, pos =>
    decide (pos + 4 ≤ blob.length) &&
    decide (pos + 4 + u32_at blob pos ≤ blob.length) &&
    var_complete blob n (pos + 4 + u32_at blob pos)

/-- A full record (fixed block and every variable field) lies inside the blob
at `pos` — what holds at every offset of a well-formed store. -/
def recordComplete {F : Type} (ctx : ReaderCtx F) (blob : List Nat) (pos : Nat) : Bool :=
  (ctx.columns.isEmpty || decide (pos + ctx.fixed_size ≤ blob.length)) &&
  var_complete blob ctx.variable_length_columns.length
    (pos + (if ctx.columns.isEmpty then 0 else ctx.fixed_size))

/-- A list of length four is a four-element literal. -/
theorem list_len4 {α : Type} (l : List α) (h : l.length = 4) :
    ∃ a b c d, l = [a, b, c, d] := by
  match l with
  | [a, b, c, d] => exact ⟨a, b, c, d, rfl⟩
  | [] => simp at h
  | [_] => simp at h
  | [_, _] => simp at h
  | [_, _, _] => simp at h
  | _ :: _ :: _ :: _ :: _ :: _ => simp at h

/-- Reads that stay inside the blob return exactly the requested bytes. -/
theorem fread_full_len (blob : List Nat) (pos n : Nat) (h : pos + n ≤ blob.length) :
    (fread blob pos n).length = n := by
  unfold fread
  rw [List.length_take, List.length_drop]
  omega

/-- Inside the blob, the length prefix unpacks to `u32_at` and is 4 bytes. -/
theorem unpack_u32_fread (blob : List Nat) (pos : Nat) (h : pos + 4 ≤ blob.length) :
    unpack_u32 (fread blob pos 4) = .ok (u32_at blob pos) ∧
    (fread blob pos 4).length = 4 := by
  have hlen : (fread blob pos 4).length = 4 := fread_full_len blob pos 4 h
  obtain ⟨a, b, c, d, hl⟩ := list_len4 _ hlen
  refine ⟨?_, hlen⟩
  unfold u32_at
  rw [hl]
  rfl

/-- Indexing a memoryview taken at `p` by `c` is indexing the blob at `p + c`. -/
theorem drop_drop_view (blob : List Nat) (p c : Nat) :
    (blob.drop p).drop c = blob.drop (p + c) := by
  rw [List.drop_drop, Nat.add_comm]

/-- The three variable-column loops agree at every position where the
remaining fields lie inside the blob: the sequential/process loops track the
file position `p + c` while the mmap loop tracks the cursor `c` of a view
taken at `p`, and all read the same byte spans. -/
theorem var_cols_agree {F : Type} (ctx : ReaderCtx F) (blob : List Nat) (cols : List String) :
    ∀ (p c : Nat) (acc : List (String × RowVal F)),
    var_complete blob cols.length (p + c) = true →
    (mmap_var_cols ctx (blob.drop p) cols c acc =
       read_var_cols ctx blob cols (p + c) acc ∧
     disk_var_cols ctx blob cols (p + c) acc =
       read_var_cols ctx blob cols (p + c) acc) := by
  induction cols with
  | nil => intro p c acc _; exact ⟨rfl, rfl⟩
  | cons col rest ih =>
    intro p c acc h
    rw [List.length_cons] at h
    unfold var_complete at h
    simp only [Bool.and_eq_true, decide_eq_true_eq] at h
    obtain ⟨⟨h1, h2⟩, h3⟩ := h
    obtain ⟨hup, hlen4⟩ := unpack_u32_fread blob (p + c) h1
    have hrawlen : (fread blob (p + c + 4) (u32_at blob (p + c))).length =
        u32_at blob (p + c) := fread_full_len _ _ _ h2
    have hne : (fread blob (p + c) 4).isEmpty = false := by
      obtain ⟨a, b, c', d, hl⟩ := list_len4 _ hlen4
      rw [hl]
      rfl
    have hview4 : ((blob.drop p).drop c).take 4 = fread blob (p + c) 4 := by
      rw [drop_drop_view]
      rfl
    have hviewraw : ((blob.drop p).drop (c + 4)).take (u32_at blob (p + c)) =
        fread blob (p + c + 4) (u32_at blob (p + c)) := by
      rw [drop_drop_view]
      rw [show p + (c + 4) = p + c + 4 by omega]
      rfl
    have harith : p + (c + 4 + u32_at blob (p + c)) = p + c + 4 + u32_at blob (p + c) := by
      omega
    have hrec := ih p (c + 4 + u32_at blob (p + c))
    rw [harith] at hrec
    constructor
    · unfold mmap_var_cols read_var_cols
      dsimp only
      rw [hview4, hne]
      simp only [Bool.false_eq_true, if_false, hup]
      simp only [Bind.bind, Except.bind]
      rw [hlen4, hviewraw, hrawlen]
      by_cases hcp : ctx.compress = true
      · simp only [hcp, if_true]
        cases ctx.decompressFn (fread blob (p + c + 4) (u32_at blob (p + c))) with
        | error e => rfl
        | ok raw' =>
          dsimp only
          cases ctx.utf8decode raw' with
          | error e => rfl
          | ok s => exact (hrec (acc ++ [(col, RowVal.strv s)]) h3).1
      · simp only [hcp, if_false, Pure.pure, Except.pure]
        cases ctx.utf8decode (fread blob (p + c + 4) (u32_at blob (p + c))) with
        | error e => rfl
        | ok s => exact (hrec (acc ++ [(col, RowVal.strv s)]) h3).1
    · unfold disk_var_cols read_var_cols
      dsimp only
      rw [hne]
      simp only [Bool.false_eq_true, if_false, hup]
      simp only [Bind.bind, Except.bind]
      rw [hlen4, hrawlen]
      by_cases hcp : ctx.compress = true
      · simp only [hcp, if_true]
        cases ctx.decompressFn (fread blob (p + c + 4) (u32_at blob (p + c))) with
        | error e => rfl
        | ok raw' =>
          dsimp only
          cases ctx.utf8decode raw' with
          | error e => rfl
          | ok s => exact (hrec (acc ++ [(col, RowVal.strv s)]) h3).2
      · simp only [hcp, if_false, Pure.pure, Except.pure]
        cases ctx.utf8decode (fread blob (p + c + 4) (u32_at blob (p + c))) with
        | error e => rfl
        | ok s => exact (hrec (acc ++ [(col, RowVal.strv s)]) h3).2

/-- On a complete record, the mmap and process-pool row decoders return
exactly what `_read_single_row` returns. -/
theorem row_decoders_agree {F : Type} (ctx : ReaderCtx F) (blob : List Nat) (pos : Nat)
    (h : recordComplete ctx blob pos = true) :
    read_from_mmap ctx blob pos = read_single_row ctx blob pos ∧
    read_from_disk ctx blob pos = read_single_row ctx blob pos := by
  unfold recordComplete at h
  simp only [Bool.and_eq_true, Bool.or_eq_true, decide_eq_true_eq] at h
  obtain ⟨hfix, hvar⟩ := h
  by_cases hce : ctx.columns.isEmpty = true
  · simp only [hce, if_true] at hvar
    unfold read_from_mmap read_single_row read_from_disk
    simp only [hce, if_true]
    have hv0 : var_complete blob ctx.variable_length_columns.length (pos + 0) = true := by
      rw [Nat.add_zero]
      exact hvar
    have := var_cols_agree ctx blob ctx.variable_length_columns pos 0 [] hv0
    rw [Nat.add_zero] at this
    exact this
  · have hce' : ctx.columns.isEmpty = false := by
      cases hq : ctx.columns.isEmpty
      · rfl
      · exact absurd hq hce
    rcases hfix with hemp | hbound
    · rw [hce'] at hemp
      exact Bool.noConfusion hemp
    · simp only [hce', Bool.false_eq_true, if_false] at hvar
      unfold read_from_mmap read_single_row read_from_disk
      dsimp only
      simp only [hce', Bool.false_eq_true, if_false]
      have hfb : (fread blob pos ctx.fixed_size).length = ctx.fixed_size :=
        fread_full_len _ _ _ hbound
      rw [show (blob.drop pos).take ctx.fixed_size = fread blob pos ctx.fixed_size from rfl]
      simp only [Bind.bind, Except.bind]
      cases ctx.unpackFixed (fread blob pos ctx.fixed_size) with
      | error e => exact ⟨rfl, rfl⟩
      | ok fv =>
        have hvc := var_cols_agree ctx blob ctx.variable_length_columns pos ctx.fixed_size
          ((ctx.columns.zip fv).map fun p => (p.1, RowVal.fixedv p.2)) hvar
        rw [hfb]
        exact hvc

/-- `mapM` only depends on the function's values on the list's members. -/
theorem mapM_congr_except {α β : Type} (l : List α) (f g : α → Except PyErr β)
    (h : ∀ a ∈ l, f a = g a) : l.mapM f = l.mapM g := by
  induction l with
  | nil => rfl
  | cons a rest ih =>
    rw [List.mapM_cons, List.mapM_cons, h a (List.mem_cons_self a rest),
      ih fun b hb => h b (List.mem_cons_of_mem a hb)]

/-- `mapM` after `map` fuses. -/
theorem mapM_map_except {α β γ : Type} (l : List α) (g : α → β) (f : β → Except PyErr γ) :
    (l.map g).mapM f = l.mapM fun a => f (g a) := by
  induction l with
  | nil => rfl
  | cons a rest ih => rw [List.map_cons, List.mapM_cons, List.mapM_cons, ih]

/-- With all indices in range, the eager `record_positions` list of
`read_rows_parallel_mmap` is built without error. -/
theorem positions_mapM_pair (offsets indices : List Nat)
    (h : ∀ i ∈ indices, (offsets.get? i).isSome) :
    (indices.mapM fun i => do
       let off ← listIndex offsets i
       pure (i, off)) =
    .ok (indices.map fun i => (i, (offsets.get? i).getD 0)) := by
  induction indices with
  | nil => rfl
  | cons i rest ih =>
    rw [List.mapM_cons]
    obtain ⟨off, hoff⟩ := Option.isSome_iff_exists.mp (h i (List.mem_cons_self i rest))
    have hrest := ih fun j hj => h j (List.mem_cons_of_mem i hj)
    rw [hrest]
    rw [List.get?_eq_getElem?] at hoff
    simp [listIndex, hoff, Bind.bind, Except.bind, Pure.pure, Except.pure]

/-- With all indices in range, the eager `positions` list of
`read_rows_parallel_multiprocess` is built without error. -/
theorem positions_mapM_off (offsets indices : List Nat)
    (h : ∀ i ∈ indices, (offsets.get? i).isSome) :
    (indices.mapM fun i => do
       let off ← listIndex offsets i
       pure off) =
    .ok (indices.map fun i => (offsets.get? i).getD 0) := by
  induction indices with
  | nil => rfl
  | cons i rest ih =>
    rw [List.mapM_cons]
    obtain ⟨off, hoff⟩ := Option.isSome_iff_exists.mp (h i (List.mem_cons_self i rest))
    have hrest := ih fun j hj => h j (List.mem_cons_of_mem i hj)
    rw [hrest]
    rw [List.get?_eq_getElem?] at hoff
    simp [listIndex, hoff, Bind.bind, Except.bind, Pure.pure, Except.pure]

/-- With all indices in range, the sequential reader is the in-order map of
`_read_single_row` over the requested offsets. -/
theorem seq_reader_eq {F : Type} (ctx : ReaderCtx F) (blob : List Nat)
    (offsets indices : List Nat)
    (h : ∀ i ∈ indices, (offsets.get? i).isSome) :
    read_rows_from_bin ctx blob offsets indices =
      indices.mapM fun i => read_single_row ctx blob ((offsets.get? i).getD 0) := by
  unfold read_rows_from_bin
  apply mapM_congr_except
  intro i hi
  obtain ⟨off, hoff⟩ := Option.isSome_iff_exists.mp (h i hi)
  rw [List.get?_eq_getElem?] at hoff
  simp [listIndex, hoff, Bind.bind, Except.bind]

/-- The memory-mapped reader equals the sequential one whenever the blob is
nonempty (so that `mmap.mmap` succeeds), every requested row number is in
range, and every record lies inside the blob — for an arbitrary fixed format,
unpacker, decompressor and string decoder. -/
theorem mmap_reader_equals_sequential {F : Type} (ctx : ReaderCtx F) (blob : List Nat)
    (offsets indices : List Nat)
    (hblob : blob.isEmpty = false)
    (h : ∀ i ∈ indices, ∃ off, offsets.get? i = some off ∧
      recordComplete ctx blob off = true) :
    read_rows_parallel_mmap ctx blob offsets indices =
      read_rows_from_bin ctx blob offsets indices := by
  have hsome : ∀ i ∈ indices, (offsets.get? i).isSome := by
    intro i hi
    obtain ⟨off, hoff, -⟩ := h i hi
    rw [hoff]
    rfl
  have hcompD : ∀ i ∈ indices, recordComplete ctx blob ((offsets.get? i).getD 0) = true := by
    intro i hi
    obtain ⟨off, hoff, hcomp⟩ := h i hi
    rw [hoff]
    exact hcomp
  unfold read_rows_parallel_mmap
  rw [positions_mapM_pair offsets indices hsome]
  simp only [Bind.bind, Except.bind, hblob, Bool.false_eq_true, if_false]
  rw [mapM_map_except]
  rw [seq_reader_eq ctx blob offsets indices hsome]
  apply mapM_congr_except
  intro i hi
  exact (row_decoders_agree ctx blob _ (hcompD i hi)).1

/-- Slot `j + 1` of the thread worker over `i :: rest` is slot `j` over
`rest`. -/
theorem read_one_cons {F : Type} (ctx : ReaderCtx F) (blob : List Nat)
    (offsets : List Nat) (i : Nat) (rest : List Nat) (j : Nat) :
    read_one ctx blob offsets (i :: rest) (j + 1) = read_one ctx blob offsets rest j :=
  rfl

/-- Whenever the sequential reader succeeds, the thread-pool reader fills
every slot with the same row (each wrapped in `some`); the two paths diverge
only when a row raises — the sequential path propagates the exception while
the thread variant swallows it into a `None` slot. -/
theorem thread_reader_matches_sequential {F : Type} (ctx : ReaderCtx F) (blob : List Nat)
    (offsets indices : List Nat) (rows : List (List (String × RowVal F)))
    (h : read_rows_from_bin ctx blob offsets indices = .ok rows) :
    read_rows_parallel ctx blob offsets indices = rows.map some := by
  induction indices generalizing rows with
  | nil =>
    have hrows : rows = [] := (Except.ok.inj h).symm
    subst hrows
    rfl
  | cons i rest ih =>
    unfold read_rows_from_bin at h
    rw [List.mapM_cons] at h
    cases hf : (do
        let off ← listIndex offsets i
        read_single_row ctx blob off :
        Except PyErr (List (String × RowVal F))) with
    | error e =>
      rw [hf] at h
      simp only [Bind.bind, Except.bind] at h
      exact Except.noConfusion h
    | ok r =>
      rw [hf] at h
      generalize hM : (rest.mapM fun idx => do
          let off ← listIndex offsets idx
          read_single_row ctx blob off) = M at h
      cases M with
      | error e =>
        simp only [Bind.bind, Except.bind] at h
        exact Except.noConfusion h
      | ok rs =>
        simp only [Bind.bind, Except.bind, Pure.pure, Except.pure, Except.ok.injEq] at h
        subst h
        have ihr := ih rs hM
        unfold read_rows_parallel at ihr ⊢
        rw [List.length_cons, List.range_succ_eq_map, List.map_cons, List.map_map,
          List.map_cons]
        have h0 : read_one ctx blob offsets (i :: rest) 0 = .ok r := hf
        rw [h0]
        refine congrArg (some r :: ·) ?_
        rw [← ihr]
        apply List.map_congr_left
        intro j hj
        rfl

/-- The process-pool reader raises on every nonempty request with in-range
row numbers: `ProcessPoolExecutor` cannot pickle the method-local worker. -/
theorem multiprocess_reader_always_raises {F : Type} (ctx : ReaderCtx F) (blob : List Nat)
    (offsets indices : List Nat) (hne : indices ≠ [])
    (hsome : ∀ i ∈ indices, (offsets.get? i).isSome) :
    read_rows_parallel_multiprocess ctx blob offsets indices = .error .picklingError := by
  unfold read_rows_parallel_multiprocess
  rw [positions_mapM_off offsets indices hsome]
  simp only [Bind.bind, Except.bind]
  cases indices with
  | nil => exact absurd rfl hne
  | cons i rest => rfl

/-- A concrete reader context: one `i` column, one compressed string column,
identity decompression, byte-literal string decoding. -/
def demoCtx : ReaderCtx Int :=
  { columns := ["id"]
    variable_length_columns := ["comment"]
    compress := true
    fixed_size := 4
    unpackFixed := fun bs => (unpack_i32 bs).map fun n => [n]
    decompressFn := fun bs => .ok bs
    utf8decode := fun bs => .ok (String.mk (bs.map Char.ofNat)) }

/-- One serialized record: `id = 1`, then the 2-byte payload "hi". -/
def demoBlob : List Nat := [1, 0, 0, 0, 2, 0, 0, 0, 104, 105]

/-- `demoCtx` with a string decoder that always raises, standing for a row
whose payload fails to decode. -/
def demoCtxBad : ReaderCtx Int :=
  { demoCtx with utf8decode := fun _ => .error (.valueError "invalid utf-8") }

/-- C6: the claimed equivalence fails on the code.  Evaluated on the
one-record store (`demoBlob`, offset table `[0]`, request `[0]`): the
sequential and memory-mapped readers both decode the row, and the thread-pool
reader fills its slot with the same row; but the process-pool variant raises
`PicklingError` — `ProcessPoolExecutor` cannot pickle the method-local
`read_from_disk` — so it never equals the sequential output on any nonempty
request.  Moreover, when a row's decode raises (`demoCtxBad`), the sequential
path propagates the exception while the thread variant swallows it, leaving a
`None` slot; and on an empty store the memory-mapped variant raises
`ValueError` from `mmap.mmap(fileno, 0)` where the sequential path returns an
empty result. -/
theorem parallel_readers_divergence_eval :
    (read_rows_from_bin demoCtx demoBlob [0] [0] =
       .ok [[("id", RowVal.fixedv (1 : Int)), ("comment", RowVal.strv "hi")]] ∧
     read_rows_parallel_mmap demoCtx demoBlob [0] [0] =
       .ok [[("id", RowVal.fixedv (1 : Int)), ("comment", RowVal.strv "hi")]] ∧
     read_rows_parallel demoCtx demoBlob [0] [0] =
       [some [("id", RowVal.fixedv (1 : Int)), ("comment", RowVal.strv "hi")]]) ∧
    (read_rows_parallel_multiprocess demoCtx demoBlob [0] [0] = .error .picklingError ∧
     read_rows_parallel_multiprocess demoCtx demoBlob [0] [0] ≠
       read_rows_from_bin demoCtx demoBlob [0] [0]) ∧
    (read_rows_from_bin demoCtxBad demoBlob [0] [0] =
       .error (.valueError "invalid utf-8") ∧
     read_rows_parallel demoCtxBad demoBlob [0] [0] = [none]) ∧
    (read_rows_from_bin demoCtx [] [] [] = .ok [] ∧
     read_rows_parallel_mmap demoCtx [] [] [] =
       .error (.valueError "cannot mmap an empty file")) :=
  ⟨⟨rfl, rfl, rfl⟩, ⟨rfl, fun h => Except.noConfusion h⟩, ⟨rfl, rfl⟩, rfl, rfl⟩

end LSearch
